import Mathlib

/-!
Verification of the signature-page extraction pipeline of the
SignaturePacketIDE repository against its specification.

The development shallowly embeds the core functions of the repository:

* the signature-keyword page classifier and the batched candidate scanner
  (`findSignaturePageCandidates` in `src/services/pdfService.ts`),
* the metadata-extraction adapter (`extractSignatureMetadata` in
  `src/services/geminiService.ts`),
* the per-document processing pipeline (`processSingleDocument` in the
  application component),
* the grouping, sorting and navigation views (`displayedPages`,
  `navigationGroups`),
* the packet assembler (`generateGroupedPdfs` in
  `src/services/pdfService.ts`).

External effectful collaborators (pdf.js text extraction, page rasterization,
the Gemini oracle call, JSON parsing) are modelled as explicit inputs, with
`none` standing for a thrown error.  JavaScript string `localeCompare` is
modelled by code-point comparison; every concrete string appearing below is
ASCII, where the two agree.  PDF page content is modelled by an abstract page
token `(documentId, pageIndex)`: copying a source page yields its token.
-/

namespace SigPack

/-- Three-way comparison of characters by code point. -/
def charCmp (a b : Char) : Ordering :=
  if a < b then .lt else if b < a then .gt else .eq

/-- Lexicographic three-way comparison of character lists, the embedding of
JavaScript string comparison (`localeCompare` restricted to code-point
collation). -/
def strCmpL : List Char → List Char → Ordering
  | [], [] => .eq
  | [], _ :: _ => .lt
  | _ :: _, [] => .gt
  | a :: as, b :: bs =>
    match charCmp a b with
    | .eq => strCmpL as bs
    | o => o

/-- String comparison: the embedding of `a.localeCompare(b)`. -/
def strCmp (a b : String) : Ordering := strCmpL a.data b.data

/-- Three-way comparison of naturals, the embedding of the numeric sort
comparator `(a, b) => a - b` used on page indices. -/
def natCmp (a b : Nat) : Ordering :=
  if a < b then .lt else if b < a then .gt else .eq

/-- Laws shared by all comparators of the embedding: antisymmetric swap,
transitivity of strict comparison, and congruence of comparison-equality. -/
structure CmpLaws {γ : Type} (c : γ → γ → Ordering) : Prop where
  swap : ∀ x y, c y x = (c x y).swap
  lt_trans : ∀ x y z, c x y = .lt → c y z = .lt → c x z = .lt
  eq_left : ∀ x y z, c x y = .eq → c x z = c y z

theorem charCmp_eq_lt {a b : Char} : charCmp a b = .lt ↔ a < b := by
  unfold charCmp
  split_ifs with h1 h2 <;> simp [h1]

theorem charCmp_eq_eq {a b : Char} : charCmp a b = .eq ↔ a = b := by
  unfold charCmp
  split_ifs with h1 h2
  · simp [ne_of_lt h1]
  · simp [(ne_of_lt h2).symm]
  · simp [le_antisymm (not_lt.mp h2) (not_lt.mp h1)]

theorem charCmp_swap (a b : Char) : charCmp b a = (charCmp a b).swap := by
  rcases lt_trichotomy a b with h | h | h
  · simp [charCmp, h, lt_asymm h, Ordering.swap]
  · subst h
    simp [charCmp, Ordering.swap]
  · simp [charCmp, h, lt_asymm h, Ordering.swap]

theorem charCmp_lt_trans {a b c : Char} (h1 : charCmp a b = .lt)
    (h2 : charCmp b c = .lt) : charCmp a c = .lt :=
  charCmp_eq_lt.mpr (lt_trans (charCmp_eq_lt.mp h1) (charCmp_eq_lt.mp h2))

theorem strCmpL_cons (a b : Char) (as bs : List Char) :
    strCmpL (a :: as) (b :: bs) = (charCmp a b).then (strCmpL as bs) := by
  rcases hc : charCmp a b with _ | _ | _ <;>
    simp [strCmpL, hc, Ordering.then]

theorem strCmpL_eq_eq : ∀ {a b : List Char}, strCmpL a b = .eq → a = b
  | [], [], _ => rfl
  | [], _ :: _, h => by simp [strCmpL] at h
  | _ :: _, [], h => by simp [strCmpL] at h
  | a :: as, b :: bs, h => by
    rw [strCmpL_cons] at h
    rcases hc : charCmp a b with hv | hv | hv <;> rw [hc] at h <;>
      simp [Ordering.then] at h
    rw [charCmp_eq_eq.mp hc, strCmpL_eq_eq h]

theorem strCmpL_swap : ∀ (a b : List Char), strCmpL b a = (strCmpL a b).swap
  | [], [] => rfl
  | [], _ :: _ => rfl
  | _ :: _, [] => rfl
  | a :: as, b :: bs => by
    rw [strCmpL_cons, strCmpL_cons, charCmp_swap a b]
    cases charCmp a b <;> simp [Ordering.then, Ordering.swap]
    exact strCmpL_swap as bs

theorem strCmpL_lt_trans :
    ∀ {a b c : List Char}, strCmpL a b = .lt → strCmpL b c = .lt →
      strCmpL a c = .lt
  | [], [], _, h1, _ => by simp [strCmpL] at h1
  | [], _ :: _, [], _, h2 => by simp [strCmpL] at h2
  | [], _ :: _, _ :: _, _, _ => by simp [strCmpL]
  | _ :: _, [], _, h1, _ => by simp [strCmpL] at h1
  | _ :: _, _ :: _, [], _, h2 => by simp [strCmpL] at h2
  | a :: as, b :: bs, c :: cs, h1, h2 => by
    rw [strCmpL_cons] at h1 h2 ⊢
    rcases v1 : charCmp a b with _ | _ | _ <;> rw [v1] at h1 <;>
      rcases v2 : charCmp b c with _ | _ | _ <;> rw [v2] at h2 <;>
        simp [Ordering.then] at h1 h2
    · rw [charCmp_lt_trans v1 v2]
      rfl
    · obtain rfl : b = c := charCmp_eq_eq.mp v2
      rw [v1]
      rfl
    · obtain rfl : a = b := charCmp_eq_eq.mp v1
      rw [v2]
      rfl
    · obtain rfl : a = b := charCmp_eq_eq.mp v1
      obtain rfl : a = c := charCmp_eq_eq.mp v2
      rw [charCmp_eq_eq.mpr rfl]
      simp [Ordering.then]
      exact strCmpL_lt_trans h1 h2

theorem strCmpL_laws : CmpLaws strCmpL := by
  refine ⟨strCmpL_swap, ?_, ?_⟩
  · intro x y z h1 h2
    exact strCmpL_lt_trans h1 h2
  · intro x y z h
    rw [strCmpL_eq_eq h]

theorem strCmp_laws : CmpLaws strCmp := by
  refine ⟨?_, ?_, ?_⟩
  · intro x y
    exact strCmpL_laws.swap x.data y.data
  · intro x y z h1 h2
    exact strCmpL_laws.lt_trans x.data y.data z.data h1 h2
  · intro x y z h
    exact strCmpL_laws.eq_left x.data y.data z.data h

theorem strCmp_eq_eq {a b : String} (h : strCmp a b = .eq) : a = b := by
  have h2 := strCmpL_eq_eq h
  exact congrArg String.mk h2

theorem natCmp_eq_lt {a b : Nat} : natCmp a b = .lt ↔ a < b := by
  unfold natCmp
  split_ifs with h1 h2 <;> simp [h1]

theorem natCmp_eq_eq {a b : Nat} : natCmp a b = .eq ↔ a = b := by
  unfold natCmp
  split_ifs with h1 h2 <;> simp <;> omega

theorem natCmp_laws : CmpLaws natCmp := by
  refine ⟨?_, ?_, ?_⟩
  · intro x y
    rcases Nat.lt_trichotomy x y with h | h | h
    · simp [natCmp, h, Nat.lt_asymm h, Ordering.swap]
    · subst h
      simp [natCmp, Ordering.swap]
    · simp [natCmp, h, Nat.lt_asymm h, Ordering.swap]
  · intro x y z h1 h2
    exact natCmp_eq_lt.mpr (lt_trans (natCmp_eq_lt.mp h1) (natCmp_eq_lt.mp h2))
  · intro x y z h
    rw [natCmp_eq_eq.mp h]

theorem CmpLaws.self_eq {γ : Type} {c : γ → γ → Ordering} (h : CmpLaws c)
    (x : γ) : c x x = .eq := by
  have hs := h.swap x x
  rcases hv : c x x with _ | _ | _
  · rw [hv] at hs
    simp [Ordering.swap] at hs
  · rfl
  · rw [hv] at hs
    simp [Ordering.swap] at hs

theorem CmpLaws.eq_swap {γ : Type} {c : γ → γ → Ordering} (h : CmpLaws c)
    {x y : γ} (hxy : c x y = .eq) : c y x = .eq := by
  rw [h.swap x y, hxy]
  rfl

theorem CmpLaws.eq_right {γ : Type} {c : γ → γ → Ordering} (h : CmpLaws c)
    {x y : γ} (z : γ) (hxy : c x y = .eq) : c z x = c z y := by
  rw [h.swap x z, h.swap y z, h.eq_left y x z (h.eq_swap hxy)]

/-- Composition of two comparators, first deciding by the first one. -/
def thenCmp {γ : Type} (c1 c2 : γ → γ → Ordering) (x y : γ) : Ordering :=
  (c1 x y).then (c2 x y)

theorem CmpLaws.thenCmp {γ : Type} {c1 c2 : γ → γ → Ordering}
    (h1 : CmpLaws c1) (h2 : CmpLaws c2) : CmpLaws (SigPack.thenCmp c1 c2) := by
  refine ⟨?_, ?_, ?_⟩
  · intro x y
    unfold SigPack.thenCmp
    rw [h1.swap x y, h2.swap x y]
    cases c1 x y <;> simp [Ordering.then, Ordering.swap]
  · intro x y z hxy hyz
    unfold SigPack.thenCmp at hxy hyz ⊢
    rcases v1 : c1 x y with _ | _ | _ <;> rw [v1] at hxy <;>
      rcases v2 : c1 y z with _ | _ | _ <;> rw [v2] at hyz <;>
        simp [Ordering.then] at hxy hyz
    · rw [h1.lt_trans x y z v1 v2]
      rfl
    · rw [← h1.eq_right x v2, v1]
      rfl
    · rw [h1.eq_left x y z v1, v2]
      rfl
    · rw [h1.eq_left x y z v1, v2]
      simp [Ordering.then]
      exact h2.lt_trans x y z hxy hyz
  · intro x y z hxy
    unfold SigPack.thenCmp at hxy ⊢
    rcases v1 : c1 x y with _ | _ | _ <;> rw [v1] at hxy <;>
      simp [Ordering.then] at hxy
    rw [h1.eq_left x y z v1]
    cases c1 y z <;> simp [Ordering.then]
    exact h2.eq_left x y z hxy

/-- Comparators transported along a key function keep the laws. -/
theorem CmpLaws.comap {γ δ : Type} {c : δ → δ → Ordering} (h : CmpLaws c)
    (f : γ → δ) : CmpLaws (fun x y => c (f x) (f y)) := by
  refine ⟨?_, ?_, ?_⟩
  · intro x y
    exact h.swap (f x) (f y)
  · intro x y z g1 g2
    exact h.lt_trans (f x) (f y) (f z) g1 g2
  · intro x y z g1
    exact h.eq_left (f x) (f y) (f z) g1

/-- Two comparators that agree pointwise share the laws. -/
theorem CmpLaws.congr {γ : Type} {c d : γ → γ → Ordering} (h : CmpLaws d)
    (he : ∀ x y, c x y = d x y) : CmpLaws c := by
  refine ⟨?_, ?_, ?_⟩
  · intro x y
    rw [he, he, h.swap]
  · intro x y z g1 g2
    rw [he] at g1 g2 ⊢
    exact h.lt_trans x y z g1 g2
  · intro x y z g1
    rw [he] at g1
    rw [he, he]
    exact h.eq_left x y z g1

/-- Order relation induced by a comparator as used by a JavaScript stable
sort: `x` may stay before `y` whenever the comparator does not order it
strictly after `y`. -/
def cmpLe {γ : Type} (c : γ → γ → Ordering) (x y : γ) : Prop :=
  c x y ≠ .gt

instance cmpLeDecidable {γ : Type} (c : γ → γ → Ordering) :
    DecidableRel (cmpLe c) := by
  intro x y
  unfold cmpLe
  infer_instance

theorem CmpLaws.le_trans {γ : Type} {c : γ → γ → Ordering} (h : CmpLaws c)
    {x y z : γ} (h1 : cmpLe c x y) (h2 : cmpLe c y z) : cmpLe c x z := by
  unfold cmpLe at h1 h2 ⊢
  rcases v1 : c x y with _ | _ | _
  · rcases v2 : c y z with _ | _ | _
    · rw [h.lt_trans x y z v1 v2]
      simp
    · rw [← h.eq_right x v2, v1]
      simp
    · exact absurd v2 h2
  · rw [h.eq_left x y z v1]
    exact h2
  · exact absurd v1 h1

theorem CmpLaws.le_total {γ : Type} {c : γ → γ → Ordering} (h : CmpLaws c)
    (x y : γ) : cmpLe c x y ∨ cmpLe c y x := by
  rcases v : c x y with _ | _ | _
  · left
    unfold cmpLe
    rw [v]
    simp
  · left
    unfold cmpLe
    rw [v]
    simp
  · right
    unfold cmpLe
    rw [h.swap x y, v]
    simp [Ordering.swap]

theorem CmpLaws.isTotal {γ : Type} {c : γ → γ → Ordering} (h : CmpLaws c) :
    IsTotal γ (cmpLe c) := ⟨h.le_total⟩

theorem CmpLaws.isTrans {γ : Type} {c : γ → γ → Ordering} (h : CmpLaws c) :
    IsTrans γ (cmpLe c) := ⟨fun _ _ _ => h.le_trans⟩

/-!
Page classifier.

`findSignaturePageCandidates` tests the extracted text of each page against

  `(?<!\w)(Signature|Execution|Excution|Signatory|Executed|Signed|Witness|`
  `Agreed\s+and\s+Accepted|Accepted\s+by|Acknowledged\s+by|Duly\s+Authorized|`
  `Duly\s+Authorised|By:|Name:|Title:|Position:|Date:)(?!\w)` with flag `i`.

The embedding represents each alternative as a list of atoms: a literal
character (matched case-insensitively) or an internal whitespace run
(`\s+`, matched by one or more whitespace characters).  The negative
lookbehind and lookahead require that no word character (`\w`, i.e. ASCII
letter, digit or underscore) be adjacent to the match.  Whitespace and case
folding are restricted to ASCII, which covers every vocabulary term.
-/

/-- Word characters of the regex class `\w`. -/
def isWordChar (c : Char) : Bool := c.isAlphanum || c = '_'

/-- Whitespace characters of the regex class `\s` (ASCII part). -/
def isSpaceChar (c : Char) : Bool :=
  c = ' ' || c = '\t' || c = '\n' || c = '\x0d' || c = '\x0b' || c = '\x0c'

/-- One atom of a vocabulary term: a literal character or a `\s+` run. -/
inductive TermAtom : Type
  | lit : Char → TermAtom
  | ws : TermAtom
deriving DecidableEq

/-- Translation from the literal spelling of a regex alternative (with
single spaces standing for `\s+`) to its atom list. -/
def termOfString (s : String) : List TermAtom :=
  s.data.map (fun c => if c = ' ' then TermAtom.ws else TermAtom.lit c)

/-- The seventeen alternatives of the signature-detection regex, as spelled
in the source. -/
def vocabularyTerms : List String :=
  ["Signature", "Execution", "Excution", "Signatory", "Executed", "Signed",
   "Witness", "Agreed and Accepted", "Accepted by", "Acknowledged by",
   "Duly Authorized", "Duly Authorised", "By:", "Name:", "Title:",
   "Position:", "Date:"]

/-- The regex alternation as atom lists. -/
def signatureVocabulary : List (List TermAtom) :=
  vocabularyTerms.map termOfString

/-- Matching of one alternative at the head of `s`: consumes the matched
characters and returns the remainder, or `none` on a mismatch.  Literal
characters match case-insensitively; a `\s+` atom consumes one whitespace
character and then a maximal whitespace run (the following atom is never a
whitespace literal, so greedy consumption is faithful to the regex). -/
def matchAtoms : List TermAtom → List Char → Option (List Char)
  | [], s => some s
  | TermAtom.lit _ :: _, [] => none
  | TermAtom.lit c :: ts, x :: s =>
    if x.toLower = c.toLower then matchAtoms ts s else none
  | TermAtom.ws :: _, [] => none
  | TermAtom.ws :: ts, x :: s =>
    if isSpaceChar x then matchAtoms ts (s.dropWhile isSpaceChar) else none

/-- Negative lookbehind `(?<!\w)`: the character before the match, if any,
is not a word character. -/
def boundaryBefore : Option Char → Bool
  | none => true
  | some c => !isWordChar c

/-- Negative lookahead `(?!\w)`: the character after the match, if any, is
not a word character. -/
def boundaryAfter : List Char → Bool
  | [] => true
  | c :: _ => !isWordChar c

/-- Does some alternative match at this position (with boundary checks)?
`prev` is the character immediately before the position. -/
def matchesVocabAt (prev : Option Char) (s : List Char) : Bool :=
  signatureVocabulary.any (fun t =>
    match matchAtoms t s with
    | some rest => boundaryBefore prev && boundaryAfter rest
    | none => false)

/-- Scan of every start position, left to right. -/
def scanVocab : Option Char → List Char → Bool
  | _, [] => false
  | prev, c :: rest => matchesVocabAt prev (c :: rest) || scanVocab (some c) rest

/-- Embedding of `regex.test(text)` for the signature-detection regex. -/
def signatureRegexTest (text : String) : Bool :=
  scanVocab none text.data


/-!
Candidate scanner.

`findSignaturePageCandidates` walks page numbers `1 .. numPages` in batches
of ten, extracts the text of each page (modelled by `text : Nat → Option
String`, `none` standing for a thrown `getPage`/`getTextContent` error that
the `catch` turns into "not a candidate"), tests the signature regex, and
collects the zero-based index `pageNum - 1` of each match.  `Promise.all`
preserves the order of the batch, so a batch contributes its candidates in
page order; the final list is sorted ascending by the numeric comparator.
-/

/-- Embedding of the per-page async body of the batch loop. -/
def testPage (text : Nat → Option String) (pageNum : Nat) : Option Nat :=
  match text pageNum with
  | none => none
  | some t => if signatureRegexTest t then some (pageNum - 1) else none

/-- Embedding of the batch loop `for (let i = 1; i <= numPages; i += 10)`:
each iteration scans pages `i .. min (i + 9) numPages` and appends the
candidates found. -/
def scanBatches (text : Nat → Option String) (numPages : Nat) (i : Nat) :
    List Nat :=
  if _h : i ≤ numPages then
    (List.range' i (min (i + 9) numPages + 1 - i)).filterMap (testPage text)
      ++ scanBatches text numPages (i + 10)
  else []
termination_by numPages + 1 - i
decreasing_by omega

/-- Embedding of `findSignaturePageCandidates`: batched scan followed by
`candidatePages.sort((a, b) => a - b)` (a stable ascending sort). -/
def findSignaturePageCandidates (text : Nat → Option String)
    (numPages : Nat) : List Nat :=
  List.insertionSort (cmpLe natCmp) (scanBatches text numPages 1)

/-!
Data model (`src/types.ts`).  The `id` fields are fresh UUIDs and the
thumbnail is an unmodelled data URL; the UUIDs play no role in any claim and
are omitted from the record embedding.
-/

/-- One signing block as returned by the extraction oracle. -/
structure SignatureBlock : Type where
  partyName : String
  signatoryName : String
  capacity : String
deriving DecidableEq

/-- Result type of the metadata-extraction adapter
(`SignatureMetadataExtraction` in `src/types.ts`). -/
structure SignatureMetadataExtraction : Type where
  signatures : List SignatureBlock
deriving DecidableEq

/-- Result of rendering one page to an image (`renderPageToImage`). -/
structure RenderedImage : Type where
  dataUrl : String
  width : Nat
  height : Nat
deriving DecidableEq

/-- One extracted signature record (`ExtractedSignaturePage` in
`src/types.ts`).  The copy count is a natural number: the user interface
only ever sets `Math.max(0, copies - 1)` or `copies + 1`, so it is never
negative. -/
structure ExtractedSignaturePage : Type where
  documentId : String
  documentName : String
  pageIndex : Nat
  pageNumber : Nat
  partyName : String
  signatoryName : String
  capacity : String
  copies : Nat
  thumbnailUrl : String
  originalWidth : Nat
  originalHeight : Nat
deriving DecidableEq

/-- One uploaded document as seen by the packet assembler: its identifier
names the source of page bytes. -/
structure ProcessedDocument : Type where
  id : String
  name : String
  pageCount : Nat
deriving DecidableEq

/-- Processing status of one document. -/
inductive DocStatus : Type
  | pending
  | processing
  | completed
  | error
deriving DecidableEq

/-- The three grouping modes (`GroupingMode` in `src/types.ts`). -/
inductive GroupingMode : Type
  | agreement
  | counterparty
  | signatory
deriving DecidableEq

/-!
Metadata-extraction adapter (`extractSignatureMetadata` in
`src/services/geminiService.ts`).  The oracle call is modelled by its
outcome: a thrown error (network failure or timeout), or a response whose
`text` is absent (`none`), empty, or a string handed to `JSON.parse`
(modelled by `parse`, `none` standing for a parse error).  The single
`catch` block converts every one of these failures into `{ signatures: [] }`.
-/

/-- Outcome of the `generateContent` oracle call. -/
inductive OracleOutcome : Type
  | failure
  | response : Option String → OracleOutcome

/-- Embedding of `extractSignatureMetadata`. -/
def extractSignatureMetadata (oracle : OracleOutcome)
    (parse : String → Option SignatureMetadataExtraction) :
    SignatureMetadataExtraction :=
  match oracle with
  | .failure => ⟨[]⟩
  | .response none => ⟨[]⟩
  | .response (some t) =>
    if t = "" then ⟨[]⟩
    else
      match parse t with
      | none => ⟨[]⟩
      | some m => m

/-!
Document pipeline (`processSingleDocument` in the application component).
Per candidate page, the pipeline renders the page and calls the adapter;
the outcome of the two calls is modelled by `Option (RenderedImage × List
SignatureBlock)`, `none` standing for a thrown rendering (or other) error
that the per-page `catch` turns into an empty record list.  Candidate pages
are processed in chunks of five (`CONCURRENT_AI_REQUESTS_PER_DOC`);
`Promise.all` preserves order inside a chunk and the chunk results are
flattened in order.
-/

/-- Embedding of the per-candidate-page lambda of the pipeline, including
the placeholder record created when the adapter returns no signing block
and the field defaulting (`sig.partyName || "Unknown Party"` and friends)
applied when it returns some. -/
def processCandidatePage (docId docName : String) (pageIndex : Nat)
    (outcome : Option (RenderedImage × List SignatureBlock)) :
    List ExtractedSignaturePage :=
  match outcome with
  | none => []
  | some (img, []) =>
    [{ documentId := docId
       documentName := docName
       pageIndex := pageIndex
       pageNumber := pageIndex + 1
       partyName := "Unknown Party"
       signatoryName := ""
       capacity := "Signatory"
       copies := 1
       thumbnailUrl := img.dataUrl
       originalWidth := img.width
       originalHeight := img.height }]
  | some (img, sigs@(_ :: _)) =>
    sigs.map (fun sig =>
      { documentId := docId
        documentName := docName
        pageIndex := pageIndex
        pageNumber := pageIndex + 1
        partyName := if sig.partyName = "" then "Unknown Party"
                     else sig.partyName
        signatoryName := sig.signatoryName
        capacity := if sig.capacity = "" then "Signatory" else sig.capacity
        copies := 1
        thumbnailUrl := img.dataUrl
        originalWidth := img.width
        originalHeight := img.height })

/-- Slicing of the candidate list into chunks of five. -/
def chunksOf5 : List Nat → List (List Nat)
  | [] => []
  | x :: xs => ((x :: xs).take 5) :: chunksOf5 ((x :: xs).drop 5)
termination_by l => l.length
decreasing_by simp; omega

/-- Embedding of the chunked metadata-extraction loop: each chunk is mapped
over its pages, the per-chunk results are flattened, and all chunks are
concatenated in order. -/
def processCandidates (docId docName : String)
    (outcome : Nat → Option (RenderedImage × List SignatureBlock))
    (cands : List Nat) : List ExtractedSignaturePage :=
  ((chunksOf5 cands).map (fun chunk =>
    (chunk.map (fun idx =>
      processCandidatePage docId docName idx (outcome idx))).flatten)).flatten

/-- Embedding of `processSingleDocument`.  `pageCountRes` is the outcome of
`getPageCount` and `scanRes` the outcome of the candidate scan (each `none`
when the call throws); the outer `catch` marks the document `error` in
those cases, and every other run terminates with status `completed`. -/
def processSingleDocument (docId docName : String)
    (pageCountRes : Option Nat) (scanRes : Option (List Nat))
    (outcome : Nat → Option (RenderedImage × List SignatureBlock)) :
    DocStatus × List ExtractedSignaturePage :=
  match pageCountRes with
  | none => (.error, [])
  | some _ =>
    match scanRes with
    | none => (.error, [])
    | some cands => (.completed, processCandidates docId docName outcome cands)

/-!
Grouping engine (`displayedPages` and `navigationGroups` in the application
component).  `displayedPages` sorts the flattened record list with a
mode-dependent comparator handed to the stable `Array.prototype.sort`;
`navigationGroups` collects the mode-dependent labels of the sorted list
into a `Set`, which preserves first-insertion order.
-/

/-- Comparator of the by-agreement view: document name, then page index.
The same comparator orders records inside one packet group. -/
def cmpDocThenPage (a b : ExtractedSignaturePage) : Ordering :=
  if a.documentName = b.documentName then natCmp a.pageIndex b.pageIndex
  else strCmp a.documentName b.documentName

/-- Comparator of the by-counterparty view: party name, then document
name. -/
def cmpPartyThenDoc (a b : ExtractedSignaturePage) : Ordering :=
  if a.partyName = b.partyName then strCmp a.documentName b.documentName
  else strCmp a.partyName b.partyName

/-- Sort key of the by-signatory view: `a.signatoryName || 'ZZZ'`. -/
def sigSortKey (a : ExtractedSignaturePage) : String :=
  if a.signatoryName = "" then "ZZZ" else a.signatoryName

/-- Comparator of the by-signatory view: the `'ZZZ'`-defaulted signatory
name, then party name. -/
def cmpSignatory (a b : ExtractedSignaturePage) : Ordering :=
  if sigSortKey a = sigSortKey b then strCmp a.partyName b.partyName
  else strCmp (sigSortKey a) (sigSortKey b)

/-- Mode-dependent comparator of `displayedPages`. -/
def displayCmp : GroupingMode → ExtractedSignaturePage →
    ExtractedSignaturePage → Ordering
  | .agreement => cmpDocThenPage
  | .counterparty => cmpPartyThenDoc
  | .signatory => cmpSignatory

/-- Embedding of `displayedPages`: the record list sorted by the
mode-dependent comparator (JavaScript sort is stable; insertion sort over
`cmpLe` models it). -/
def displayedPages (mode : GroupingMode)
    (pages : List ExtractedSignaturePage) : List ExtractedSignaturePage :=
  List.insertionSort (cmpLe (displayCmp mode)) pages

/-- Mode-dependent navigation label of one record, with the literal
fallback `"Unknown Signatory"` for an empty signatory name. -/
def navKey (mode : GroupingMode) (p : ExtractedSignaturePage) : String :=
  match mode with
  | .agreement => p.documentName
  | .counterparty => p.partyName
  | .signatory =>
    if p.signatoryName = "" then "Unknown Signatory" else p.signatoryName

/-- Insertion into a JavaScript `Set` modelled as an order-preserving list
of distinct elements. -/
def insertUniq (l : List String) (s : String) : List String :=
  if s ∈ l then l else l ++ [s]

/-- Embedding of `navigationGroups`: the labels of the sorted view in
first-appearance order. -/
def navigationGroups (mode : GroupingMode)
    (pages : List ExtractedSignaturePage) : List String :=
  (displayedPages mode pages).foldl (fun acc p => insertUniq acc (navKey mode p)) []

/-!
Packet assembler (`generateGroupedPdfs` in `src/services/pdfService.ts`).

Records with copy count zero are skipped.  The remaining records are
partitioned into groups keyed by the mode-dependent group key (with the
literal `'Unknown_Signatory'` fallback in by-signatory mode); a JavaScript
object keyed by strings preserves first-insertion order of keys, modelled
by an association list, and pushing appends to the group.  Each group is
sorted by document name then page index, and each record contributes its
source page once per requested copy; a record whose owning document cannot
be found is skipped.  The group name is sanitized into a file name and the
serialized bytes are stored under it, overwriting any previous entry with
the same name.  A serialized output is modelled by its list of page tokens.
-/

/-- A copied source page, identified by owning document and page index. -/
abbrev PageToken : Type := String × Nat

/-- Mode-dependent group key of `generateGroupedPdfs`. -/
def groupKey (mode : GroupingMode) (p : ExtractedSignaturePage) : String :=
  match mode with
  | .agreement => p.documentName
  | .counterparty => p.partyName
  | .signatory =>
    if p.signatoryName = "" then "Unknown_Signatory" else p.signatoryName

/-- Pushing a record onto its group in the association list of groups,
appending a fresh group at the end when the key is new. -/
def addToGroups (gs : List (String × List ExtractedSignaturePage))
    (k : String) (p : ExtractedSignaturePage) :
    List (String × List ExtractedSignaturePage) :=
  match gs with
  | [] => [(k, [p])]
  | (k1, ps) :: rest =>
    if k1 = k then (k1, ps ++ [p]) :: rest
    else (k1, ps) :: addToGroups rest k p

/-- Embedding of the grouping loop of `generateGroupedPdfs`, including the
`if (page.copies <= 0) continue` filter. -/
def groupRecords (mode : GroupingMode)
    (pagesToInclude : List ExtractedSignaturePage) :
    List (String × List ExtractedSignaturePage) :=
  pagesToInclude.foldl
    (fun gs p => if p.copies = 0 then gs else addToGroups gs (groupKey mode p) p)
    []

/-- Within-group sort of the assembler: document name, then page index,
independent of the grouping mode. -/
def sortGroupPages (ps : List ExtractedSignaturePage) :
    List ExtractedSignaturePage :=
  List.insertionSort (cmpLe cmpDocThenPage) ps

/-- Pages contributed to the output by one record: its source page token,
`copies` times, or nothing when the owning document is absent from the
document list. -/
def pageOutput (documents : List ProcessedDocument)
    (p : ExtractedSignaturePage) : List PageToken :=
  match documents.find? (fun d => d.id = p.documentId) with
  | none => []
  | some _ => List.replicate p.copies (p.documentId, p.pageIndex)

/-- Serialized output of one group: its records in within-group sort order,
each expanded to its page tokens. -/
def emitGroup (documents : List ProcessedDocument)
    (ps : List ExtractedSignaturePage) : List PageToken :=
  ((sortGroupPages ps).map (pageOutput documents)).flatten

/-- Characters stripped by the file-name sanitizer
(`/[/\\?%*:|"<>]/g`). -/
def illegalFileChar (c : Char) : Bool :=
  c = '/' || c = '\\' || c = '?' || c = '%' || c = '*' || c = ':' ||
  c = '|' || c = '\x22' || c = '<' || c = '>'

/-- Trimming of leading and trailing whitespace (`String.prototype.trim`,
ASCII part). -/
def trimChars (l : List Char) : List Char :=
  (((l.dropWhile isSpaceChar).reverse).dropWhile isSpaceChar).reverse

/-- Embedding of the file-name sanitizer of `generateGroupedPdfs`: strip
illegal characters, trim, fall back to `"Signature_Pack"` when empty, and
append `".pdf"` unless the lowercased name already ends with it. -/
def sanitizeGroupName (groupName : String) : String :=
  let stripped := trimChars (groupName.data.filter (fun c => !illegalFileChar c))
  let safe := if stripped = [] then "Signature_Pack".data else stripped
  if (".pdf".data).isSuffixOf (safe.map Char.toLower) then String.mk safe
  else String.mk (safe ++ ".pdf".data)

/-- Assignment `results[safeName] = pdfBytes` on a JavaScript object
modelled as an association list: replace in place, or append a new entry. -/
def setResult (rs : List (String × List PageToken)) (k : String)
    (v : List PageToken) : List (String × List PageToken) :=
  match rs with
  | [] => [(k, v)]
  | (k1, v1) :: rest =>
    if k1 = k then (k1, v) :: rest else (k1, v1) :: setResult rest k v

/-- Embedding of `generateGroupedPdfs`: group the included records, emit
each group in order, and store its bytes under its sanitized file name. -/
def generateGroupedPdfs (documents : List ProcessedDocument)
    (pagesToInclude : List ExtractedSignaturePage) (mode : GroupingMode) :
    List (String × List PageToken) :=
  (groupRecords mode pagesToInclude).foldl
    (fun rs g => setResult rs (sanitizeGroupName g.1) (emitGroup documents g.2))
    []

/-- The per-group record emission order of the assembler: each group with
its records in within-group sort order.  `generateGroupedPdfs` serializes
exactly these sequences. -/
def packetRecordOrder (mode : GroupingMode)
    (pagesToInclude : List ExtractedSignaturePage) :
    List (String × List ExtractedSignaturePage) :=
  (groupRecords mode pagesToInclude).map (fun g => (g.1, sortGroupPages g.2))

/-!
Specification-side notions for the classifier claim.  The claim speaks of a
text "containing a vocabulary term as a whole word (case-insensitively)"
and of one "containing a term only as a substring of a longer word"; the
following decidable predicates formalize literal containment of the spelled
terms of `vocabularyTerms`, folding case with `Char.toLower`.
-/

/-- Case folding of a character list. -/
def lowerL (l : List Char) : List Char := l.map Char.toLower

/-- Does `t` occur, case-insensitively, at the head of `s`? -/
def substrCIAtHead (t s : List Char) : Bool :=
  (lowerL t).isPrefixOf (lowerL s)

/-- Does `t` occur, case-insensitively, anywhere in `s`? -/
def containsSubstrCI (t : List Char) : List Char → Bool
  | [] => substrCIAtHead t []
  | c :: rest => substrCIAtHead t (c :: rest) || containsSubstrCI t rest

/-- Does `t` occur, case-insensitively, at the head of `s`, with no word
character adjacent (a whole-word occurrence)? -/
def wholeWordAtHead (t s : List Char) (prev : Option Char) : Bool :=
  substrCIAtHead t s && boundaryBefore prev && boundaryAfter (s.drop t.length)

/-- Does `t` occur, case-insensitively, anywhere in `s` as a whole word? -/
def containsWholeWordCI (t : List Char) : Option Char → List Char → Bool
  | prev, [] => wholeWordAtHead t [] prev
  | prev, c :: rest =>
    wholeWordAtHead t (c :: rest) prev || containsWholeWordCI t (some c) rest

/-- The text contains some vocabulary term, case-insensitively, as a
literal substring. -/
def hasVocabSubstringCI (s : String) : Bool :=
  vocabularyTerms.any (fun t => containsSubstrCI t.data s.data)

/-- The text contains some vocabulary term, case-insensitively, as a
literal whole-word occurrence. -/
def hasVocabWholeWordCI (s : String) : Bool :=
  vocabularyTerms.any (fun t => containsWholeWordCI t.data none s.data)

/-!
Characterization of the classifier scan.
-/

/-- The character immediately before the position reached after reading
`pre`, when scanning started with `prev` before `pre`. -/
def prevAt (prev : Option Char) (pre : List Char) : Option Char :=
  match pre.getLast? with
  | some c => some c
  | none => prev

theorem prevAt_nil (prev : Option Char) : prevAt prev [] = prev := rfl

theorem prevAt_cons (prev : Option Char) (c : Char) (pre : List Char) :
    prevAt prev (c :: pre) = prevAt (some c) pre := by
  cases pre with
  | nil => rfl
  | cons p ps =>
    unfold prevAt
    rw [List.getLast?_cons_cons]
    have h2 : (p :: ps).getLast?.isSome := by
      rw [List.getLast?_isSome]
      simp
    obtain ⟨x, hx⟩ := Option.isSome_iff_exists.mp h2
    rw [hx]

theorem prevAt_none (pre : List Char) : prevAt none pre = pre.getLast? := by
  unfold prevAt
  cases pre.getLast? <;> rfl

theorem matchAtoms_vocab_nil :
    ∀ t ∈ signatureVocabulary, matchAtoms t [] = none := by decide

theorem matchesVocabAt_nil (prev : Option Char) :
    matchesVocabAt prev [] = false := by
  unfold matchesVocabAt
  rw [List.any_eq_false]
  intro t ht
  rw [matchAtoms_vocab_nil t ht]
  simp

/-- The left-to-right scan succeeds exactly when some split of the input
admits a boundary-respecting vocabulary match. -/
theorem scanVocab_iff :
    ∀ (s : List Char) (prev : Option Char),
      scanVocab prev s = true ↔
        ∃ pre rest, s = pre ++ rest ∧
          matchesVocabAt (prevAt prev pre) rest = true
  | [], prev => by
    simp only [scanVocab]
    constructor
    · intro h
      exact absurd h (by simp)
    · rintro ⟨pre, rest, hs, hm⟩
      obtain ⟨rfl, rfl⟩ := List.append_eq_nil.mp hs.symm
      rw [matchesVocabAt_nil] at hm
      exact hm
  | c :: cs, prev => by
    rw [scanVocab, Bool.or_eq_true, scanVocab_iff cs (some c)]
    constructor
    · rintro (h | ⟨pre, rest, rfl, hm⟩)
      · exact ⟨[], c :: cs, rfl, h⟩
      · refine ⟨c :: pre, rest, rfl, ?_⟩
        rw [prevAt_cons]
        exact hm
    · rintro ⟨pre, rest, hs, hm⟩
      cases pre with
      | nil =>
        left
        rw [prevAt_nil] at hm
        simpa [hs] using hm
      | cons p ps =>
        right
        rw [List.cons_append] at hs
        injection hs with h1 h2
        subst h1
        refine ⟨ps, rest, h2, ?_⟩
        rw [← prevAt_cons prev]
        exact hm

/-- Shape check on a term spelling: no leading, trailing or doubled
space, so that its `\s+` atoms consume exactly the literal spaces when the
term occurs literally. -/
def wellSpaced : List Char → Bool
  | [] => true
  | [c] => if c = ' ' then false else true
  | c :: d :: rest =>
    if c = ' ' then !isSpaceChar d && wellSpaced (d :: rest)
    else wellSpaced (d :: rest)

/-- A literal occurrence of a well-spaced term matches its atom list and
consumes exactly the term. -/
theorem matchAtoms_literal :
    ∀ (cs post : List Char), wellSpaced cs = true →
      matchAtoms
        (cs.map (fun c => if c = ' ' then TermAtom.ws else TermAtom.lit c))
        (cs ++ post) = some post
  | [], _, _ => rfl
  | [c], post, h => by
    simp only [wellSpaced] at h
    have hc : ¬ c = ' ' := by
      intro hcc
      rw [if_pos hcc] at h
      exact absurd h (by simp)
    simp only [List.map, if_neg hc, List.cons_append, List.nil_append,
      matchAtoms]
    simp
  | c :: d :: cs, post, h => by
    simp only [wellSpaced] at h
    by_cases hc : c = ' '
    · rw [if_pos hc] at h
      simp only [Bool.and_eq_true, Bool.not_eq_true] at h
      obtain ⟨hd, hw⟩ := h
      subst hc
      have hd2 : isSpaceChar d = false := by simpa using hd
      simp only [List.map, if_pos rfl, List.cons_append, matchAtoms]
      rw [if_pos (by decide)]
      simp only [List.append_eq, List.cons_append]
      have hdrop : List.dropWhile isSpaceChar (d :: (cs ++ post)) =
          d :: (cs ++ post) := by
        rw [List.dropWhile_cons, hd2]
        simp
      rw [hdrop]
      exact matchAtoms_literal (d :: cs) post hw
    · rw [if_neg hc] at h
      simp only [List.map, if_neg hc, List.cons_append, matchAtoms]
      rw [if_pos trivial]
      exact matchAtoms_literal (d :: cs) post h

theorem termOfString_eq (s : String) :
    termOfString s =
      s.data.map (fun c => if c = ' ' then TermAtom.ws else TermAtom.lit c) :=
  rfl

theorem vocabulary_wellSpaced :
    ∀ t ∈ vocabularyTerms, wellSpaced t.data = true := by decide

/-- C2, amended.  The Page Classifier returns true exactly when some split
of the text admits a boundary-respecting vocabulary match (first
conjunct), and in particular returns true whenever a vocabulary term
occurs literally with no word character adjacent (second conjunct).  The
multi-word terms also match across arbitrary nonempty whitespace runs, so
a text whose literal term occurrences all sit inside longer words can
still classify as true; the claimed false case survives only in the
absence of such a flexible match. -/
theorem claim2_classifier_word_boundary :
    (∀ text : String,
      signatureRegexTest text = true ↔
        ∃ pre rest, text.data = pre ++ rest ∧
          matchesVocabAt pre.getLast? rest = true) ∧
    (∀ t ∈ vocabularyTerms, ∀ pre post : List Char,
      boundaryBefore pre.getLast? = true → boundaryAfter post = true →
      signatureRegexTest (String.mk (pre ++ t.data ++ post)) = true) := by
  have hiff : ∀ text : String,
      signatureRegexTest text = true ↔
        ∃ pre rest, text.data = pre ++ rest ∧
          matchesVocabAt pre.getLast? rest = true := by
    intro text
    show scanVocab none text.data = true ↔ _
    rw [scanVocab_iff]
    simp only [prevAt_none]
  refine ⟨hiff, ?_⟩
  intro t ht pre post h1 h2
  rw [hiff]
  refine ⟨pre, t.data ++ post, by simp, ?_⟩
  unfold matchesVocabAt
  rw [List.any_eq_true]
  refine ⟨termOfString t, List.mem_map_of_mem termOfString ht, ?_⟩
  rw [termOfString_eq, matchAtoms_literal t.data post (vocabulary_wellSpaced t ht)]
  rw [h1]
  simpa using h2

/-- Witness for the amended classifier claim at a concrete term: a literal
whole-word occurrence of a vocabulary term classifies as true. -/
theorem claim2_witness :
    signatureRegexTest
      (String.mk ((" ").data ++ ("Signature").data ++ (", ").data)) = true :=
  claim2_classifier_word_boundary.2 ("Signature") (by decide) ((" ").data)
    ((", ").data) (by decide) (by decide)

/-- Counterexample to C2 as stated.  The text below contains the
vocabulary term `Signature` only inside the longer word `Signatures` (the
decomposition and the word character after it are exhibited, and no term
has a literal whole-word occurrence), yet the classifier returns true,
because `Agreed\s+and\s+Accepted` matches across the doubled space. -/
theorem claim2_counterexample :
    signatureRegexTest ("Signatures Agreed  and Accepted") = true ∧
    hasVocabSubstringCI ("Signatures Agreed  and Accepted") = true ∧
    hasVocabWholeWordCI ("Signatures Agreed  and Accepted") = false ∧
    ("Signatures Agreed  and Accepted").data =
      ("Signature").data ++ ("s Agreed  and Accepted").data ∧
    ("Signature") ∈ vocabularyTerms ∧
    isWordChar ('s') = true := by
  refine ⟨by decide, by decide, by decide, by decide, by decide, by decide⟩

/-!
Candidate-scanner properties.
-/

theorem testPage_some {text : Nat → Option String} {n x : Nat}
    (h : testPage text n = some x) : x = n - 1 := by
  unfold testPage at h
  revert h
  rcases ht : text n with _ | t <;> intro h <;> simp at h
  omega

/-- The batched scan collects exactly the candidates of the page range
`i .. numPages`, in page order. -/
theorem scanBatches_eq (text : Nat → Option String) (numPages i : Nat) :
    scanBatches text numPages i =
      (List.range' i (numPages + 1 - i)).filterMap (testPage text) := by
  rw [scanBatches]
  split_ifs with h
  · rw [scanBatches_eq text numPages (i + 10)]
    by_cases h2 : i + 9 ≤ numPages
    · have hmin : min (i + 9) numPages = i + 9 := by omega
      rw [hmin]
      have e1 : i + 9 + 1 - i = 10 := by omega
      have e2 : numPages + 1 - (i + 10) = numPages + 1 - i - 10 := by omega
      rw [e1, e2, ← List.filterMap_append]
      congr 1
      rw [List.range'_append_1 i 10 (numPages + 1 - i - 10)]
      congr 1
      omega
    · have hmin : min (i + 9) numPages = numPages := by omega
      rw [hmin]
      have e2 : numPages + 1 - (i + 10) = 0 := by omega
      rw [e2]
      simp
  · have e : numPages + 1 - i = 0 := by omega
    rw [e]
    simp
termination_by numPages + 1 - i
decreasing_by omega

theorem filterMap_testPage_pairwise_lt (text : Nat → Option String)
    (numPages : Nat) :
    List.Pairwise (fun a b => a < b)
      ((List.range' 1 numPages).filterMap (testPage text)) := by
  rw [List.pairwise_filterMap]
  refine (List.pairwise_lt_range' 1 numPages).imp_of_mem ?_
  intro a b ha hb hab x hx y hy
  have hxe := testPage_some (Option.mem_def.mp hx)
  have hye := testPage_some (Option.mem_def.mp hy)
  obtain ⟨ha1, _⟩ := List.mem_range'_1.mp ha
  obtain ⟨hb1, _⟩ := List.mem_range'_1.mp hb
  omega

theorem cmpLe_natCmp_iff {a b : Nat} : cmpLe natCmp a b ↔ a ≤ b := by
  unfold cmpLe natCmp
  split_ifs with h1 h2
  · simp [Nat.le_of_lt h1]
  · simp
    omega
  · simp
    omega

/-- The returned candidate list is the in-order filter of the page range:
the final ascending sort leaves it unchanged. -/
theorem findSignaturePageCandidates_eq (text : Nat → Option String)
    (numPages : Nat) :
    findSignaturePageCandidates text numPages =
      (List.range' 1 numPages).filterMap (testPage text) := by
  unfold findSignaturePageCandidates
  rw [scanBatches_eq]
  have e : numPages + 1 - 1 = numPages := by omega
  rw [e]
  apply List.Sorted.insertionSort_eq
  refine (filterMap_testPage_pairwise_lt text numPages).imp ?_
  intro a b hab
  exact cmpLe_natCmp_iff.mpr (le_of_lt hab)

/-- C3.  For every document, the candidate list is strictly ascending,
duplicate-free, and every index lies in the half-open range below the page
count. -/
theorem claim3_candidates_sorted_bounded (text : Nat → Option String)
    (numPages : Nat) :
    List.Sorted (fun a b => a < b) (findSignaturePageCandidates text numPages) ∧
    (findSignaturePageCandidates text numPages).Nodup ∧
    ∀ x ∈ findSignaturePageCandidates text numPages, x < numPages := by
  have he := findSignaturePageCandidates_eq text numPages
  have hs : List.Sorted (fun a b => a < b)
      ((List.range' 1 numPages).filterMap (testPage text)) :=
    filterMap_testPage_pairwise_lt text numPages
  refine ⟨by rw [he]; exact hs, ?_, ?_⟩
  · rw [he]
    exact hs.nodup
  · intro x hx
    rw [he] at hx
    obtain ⟨a, ha, he2⟩ := List.mem_filterMap.mp hx
    obtain ⟨h1, h2⟩ := List.mem_range'_1.mp ha
    have h3 := testPage_some he2
    omega

/-- Witness for C3 at a concrete three-page document whose second page
text alone matches the vocabulary. -/
theorem claim3_witness :
    List.Sorted (fun a b => a < b)
      (findSignaturePageCandidates
        (fun n => if n = 2 then some ("Signed") else some ("hello")) 3) ∧
    (findSignaturePageCandidates
      (fun n => if n = 2 then some ("Signed") else some ("hello")) 3).Nodup ∧
    ∀ x ∈ findSignaturePageCandidates
      (fun n => if n = 2 then some ("Signed") else some ("hello")) 3,
      x < 3 :=
  claim3_candidates_sorted_bounded
    (fun n => if n = 2 then some ("Signed") else some ("hello")) 3

/-!
Pipeline properties.
-/

/-- C4.  A procedurally confirmed page on which the adapter finds no
signing block yields exactly one placeholder record with the literal
defaults and copy count one. -/
theorem claim4_placeholder_record (docId docName : String) (pageIndex : Nat)
    (img : RenderedImage) :
    processCandidatePage docId docName pageIndex (some (img, [])) =
      [{ documentId := docId
         documentName := docName
         pageIndex := pageIndex
         pageNumber := pageIndex + 1
         partyName := "Unknown Party"
         signatoryName := ""
         capacity := "Signatory"
         copies := 1
         thumbnailUrl := img.dataUrl
         originalWidth := img.width
         originalHeight := img.height }] := rfl

/-- Chunked mapping and flattening coincide with direct mapping and
flattening: the chunk structure of the concurrency loop is transparent to
the record list. -/
theorem chunksOf5_flatMap (f : Nat → List ExtractedSignaturePage) :
    ∀ l : List Nat,
      ((chunksOf5 l).map (fun chunk => (chunk.map f).flatten)).flatten =
        (l.map f).flatten
  | [] => by simp [chunksOf5]
  | x :: xs => by
    rw [chunksOf5]
    rw [List.map_cons, List.flatten_cons]
    rw [chunksOf5_flatMap f ((x :: xs).drop 5)]
    rw [← List.flatten_append, ← List.map_append, List.take_append_drop]
termination_by l => l.length
decreasing_by simp; omega

theorem processCandidates_eq (docId docName : String)
    (outcome : Nat → Option (RenderedImage × List SignatureBlock))
    (cands : List Nat) :
    processCandidates docId docName outcome cands =
      (cands.map (fun idx =>
        processCandidatePage docId docName idx (outcome idx))).flatten := by
  unfold processCandidates
  exact chunksOf5_flatMap _ cands

/-- C5.  When page count and candidate scan succeed, an error on one
candidate page contributes zero records for that page only: the document
completes with exactly the records of the remaining candidates. -/
theorem claim5_page_error_isolated (docId docName : String) (pc : Nat)
    (outcome : Nat → Option (RenderedImage × List SignatureBlock))
    (l1 l2 : List Nat) (c : Nat) (hc : outcome c = none) :
    processSingleDocument docId docName (some pc) (some (l1 ++ c :: l2))
        outcome =
      (DocStatus.completed,
        processCandidates docId docName outcome l1
          ++ processCandidates docId docName outcome l2) := by
  show (DocStatus.completed,
      processCandidates docId docName outcome (l1 ++ c :: l2)) = _
  rw [processCandidates_eq, processCandidates_eq, processCandidates_eq]
  congr 1
  rw [List.map_append, List.map_cons, List.flatten_append, List.flatten_cons,
    hc]
  simp [processCandidatePage]

/-- Witness for C5: five candidate pages, the middle one erroring, still
complete with the other four processed. -/
theorem claim5_witness :
    processSingleDocument ("doc1") ("SPA.pdf") (some 5)
      (some ([0, 1] ++ 2 :: [3, 4]))
      (fun idx => if idx = 2 then none
        else some (⟨"img", 100, 200⟩, [⟨"Acme Corp", "Jane Smith", "Director"⟩])) =
      (DocStatus.completed,
        processCandidates ("doc1") ("SPA.pdf")
          (fun idx => if idx = 2 then none
            else some (⟨"img", 100, 200⟩, [⟨"Acme Corp", "Jane Smith", "Director"⟩]))
          [0, 1]
          ++ processCandidates ("doc1") ("SPA.pdf")
            (fun idx => if idx = 2 then none
              else some (⟨"img", 100, 200⟩, [⟨"Acme Corp", "Jane Smith", "Director"⟩]))
            [3, 4]) :=
  claim5_page_error_isolated ("doc1") ("SPA.pdf") 5 _ [0, 1] [3, 4] 2 rfl

/-- C6.  Every failure mode of the oracle call (thrown error, missing or
empty response text, unparsable content) is absorbed at the adapter
boundary into an empty signature list; the adapter is total and never
propagates an exception. -/
theorem claim6_adapter_never_throws (oracle : OracleOutcome)
    (parse : String → Option SignatureMetadataExtraction)
    (h : oracle = OracleOutcome.failure
      ∨ oracle = OracleOutcome.response none
      ∨ oracle = OracleOutcome.response (some (""))
      ∨ ∃ t, oracle = OracleOutcome.response (some t) ∧ parse t = none) :
    extractSignatureMetadata oracle parse = ⟨[]⟩ := by
  rcases h with h | h | h | ⟨t, h, hp⟩ <;> subst h
  · rfl
  · rfl
  · simp [extractSignatureMetadata]
  · simp [extractSignatureMetadata, hp]

/-- Witness for C6 at each concrete failure mode. -/
theorem claim6_witness :
    extractSignatureMetadata OracleOutcome.failure (fun _ => none) = ⟨[]⟩ :=
  claim6_adapter_never_throws OracleOutcome.failure (fun _ => none)
    (Or.inl rfl)

/-!
Grouping-engine order properties.
-/

theorem strCmp_self (a : String) : strCmp a a = .eq :=
  strCmpL_laws.self_eq a.data

theorem cmpSignatory_eq_thenCmp (a b : ExtractedSignaturePage) :
    cmpSignatory a b =
      thenCmp (fun x y => strCmp (sigSortKey x) (sigSortKey y))
        (fun x y => strCmp x.partyName y.partyName) a b := by
  show cmpSignatory a b =
    (strCmp (sigSortKey a) (sigSortKey b)).then (strCmp a.partyName b.partyName)
  unfold cmpSignatory
  by_cases h : sigSortKey a = sigSortKey b
  · rw [if_pos h, h, strCmp_self]
    rfl
  · rw [if_neg h]
    rcases hv : strCmp (sigSortKey a) (sigSortKey b) with _ | _ | _
    · rfl
    · exact absurd (strCmp_eq_eq hv) h
    · rfl

theorem cmpSignatory_laws : CmpLaws cmpSignatory :=
  CmpLaws.congr
    ((strCmp_laws.comap sigSortKey).thenCmp
      (strCmp_laws.comap (fun p => p.partyName)))
    cmpSignatory_eq_thenCmp

theorem cmpDocThenPage_eq_thenCmp (a b : ExtractedSignaturePage) :
    cmpDocThenPage a b =
      thenCmp (fun x y => strCmp x.documentName y.documentName)
        (fun x y => natCmp x.pageIndex y.pageIndex) a b := by
  show cmpDocThenPage a b =
    (strCmp a.documentName b.documentName).then (natCmp a.pageIndex b.pageIndex)
  unfold cmpDocThenPage
  by_cases h : a.documentName = b.documentName
  · rw [if_pos h, h, strCmp_self]
    rfl
  · rw [if_neg h]
    rcases hv : strCmp a.documentName b.documentName with _ | _ | _
    · rfl
    · exact absurd (strCmp_eq_eq hv) h
    · rfl

theorem cmpDocThenPage_laws : CmpLaws cmpDocThenPage :=
  CmpLaws.congr
    ((strCmp_laws.comap (fun p => p.documentName)).thenCmp
      (natCmp_laws.comap (fun p => p.pageIndex)))
    cmpDocThenPage_eq_thenCmp

theorem displayedPages_sorted (mode : GroupingMode)
    (hl : CmpLaws (displayCmp mode)) (pages : List ExtractedSignaturePage) :
    List.Sorted (cmpLe (displayCmp mode)) (displayedPages mode pages) := by
  haveI := hl.isTotal
  haveI := hl.isTrans
  exact List.sorted_insertionSort (cmpLe (displayCmp mode)) pages

/-- C7, amended.  In the by-signatory view, an empty-signatory record is
placed after every record whose signatory name collates strictly before
the `'ZZZ'` sentinel (first conjunct) — not after every non-empty
signatory, since a signatory collating at or after `'ZZZ'` sorts at or
after the sentinel.  Records with equal sort keys are ordered by party
name ascending (second conjunct). -/
theorem claim7_signatory_order (pages : List ExtractedSignaturePage) :
    (∀ i j (hi : i < (displayedPages GroupingMode.signatory pages).length)
        (hj : j < (displayedPages GroupingMode.signatory pages).length),
      ((displayedPages GroupingMode.signatory pages).get
        ⟨i, hi⟩).signatoryName = "" →
      ((displayedPages GroupingMode.signatory pages).get
        ⟨j, hj⟩).signatoryName ≠ "" →
      strCmp ((displayedPages GroupingMode.signatory pages).get
        ⟨j, hj⟩).signatoryName ("ZZZ") = .lt →
      j < i) ∧
    (∀ i j (hi : i < (displayedPages GroupingMode.signatory pages).length)
        (hj : j < (displayedPages GroupingMode.signatory pages).length),
      i ≤ j →
      sigSortKey ((displayedPages GroupingMode.signatory pages).get ⟨i, hi⟩) =
        sigSortKey ((displayedPages GroupingMode.signatory pages).get ⟨j, hj⟩) →
      strCmp ((displayedPages GroupingMode.signatory pages).get
          ⟨i, hi⟩).partyName
        ((displayedPages GroupingMode.signatory pages).get
          ⟨j, hj⟩).partyName ≠ .gt) := by
  have hs := displayedPages_sorted GroupingMode.signatory cmpSignatory_laws
    pages
  have hpw := List.pairwise_iff_get.mp hs
  constructor
  · intro i j hi hj h1 h2 h3
    by_contra hji
    have hij : i ≤ j := by omega
    rcases Nat.lt_or_ge i j with hlt | hge
    · have hle := hpw ⟨i, hi⟩ ⟨j, hj⟩ hlt
      unfold cmpLe at hle
      apply hle
      show cmpSignatory _ _ = .gt
      unfold cmpSignatory
      have hki : sigSortKey ((displayedPages GroupingMode.signatory
          pages).get ⟨i, hi⟩) = "ZZZ" := by
        unfold sigSortKey
        rw [if_pos h1]
      have hkj : sigSortKey ((displayedPages GroupingMode.signatory
          pages).get ⟨j, hj⟩) =
          ((displayedPages GroupingMode.signatory pages).get
            ⟨j, hj⟩).signatoryName := by
        unfold sigSortKey
        rw [if_neg h2]
      have hne : sigSortKey ((displayedPages GroupingMode.signatory
          pages).get ⟨i, hi⟩) ≠
          sigSortKey ((displayedPages GroupingMode.signatory pages).get
            ⟨j, hj⟩) := by
        rw [hki, hkj]
        intro he
        rw [← he, strCmp_self] at h3
        exact absurd h3 (by simp)
      rw [if_neg hne, hki, hkj]
      rw [strCmp_laws.swap]
      rw [h3]
      rfl
    · obtain rfl : i = j := by omega
      exact h2 h1
  · intro i j hi hj hij hk
    rcases Nat.lt_or_ge i j with hlt | hge
    · have hle := hpw ⟨i, hi⟩ ⟨j, hj⟩ hlt
      unfold cmpLe at hle
      intro hgt
      apply hle
      show cmpSignatory _ _ = .gt
      unfold cmpSignatory
      rw [if_pos hk]
      exact hgt
    · obtain rfl : i = j := by omega
      rw [strCmp_self]
      simp

/-- Witness for the amended by-signatory order: in a concrete two-record
list the empty-signatory record lands at index one, after the record
signed by `Jane` (whose name collates before the sentinel), so the
theorem instantiates to the position fact `0 < 1`. -/
theorem claim7_witness : 0 < 1 :=
  (claim7_signatory_order
    [{ documentId := "d1", documentName := "A.pdf", pageIndex := 0,
       pageNumber := 1, partyName := "Acme", signatoryName := "",
       capacity := "Director", copies := 1, thumbnailUrl := "u",
       originalWidth := 1, originalHeight := 1 },
     { documentId := "d1", documentName := "A.pdf", pageIndex := 1,
       pageNumber := 2, partyName := "Beta", signatoryName := "Jane",
       capacity := "Director", copies := 1, thumbnailUrl := "u",
       originalWidth := 1, originalHeight := 1 }]).1 1 0
    (by decide) (by decide) (by decide) (by decide) (by decide)

/-- Counterexample to C7 as stated: a record whose signatory name `ZZZZ`
collates after the `ZZZ` sentinel is placed after the empty-signatory
record, so the empty signatory does not sort last. -/
theorem claim7_counterexample :
    displayedPages GroupingMode.signatory
      [{ documentId := "d1", documentName := "A.pdf", pageIndex := 0,
         pageNumber := 1, partyName := "Acme", signatoryName := "ZZZZ",
         capacity := "Director", copies := 1, thumbnailUrl := "u",
         originalWidth := 1, originalHeight := 1 },
       { documentId := "d1", documentName := "A.pdf", pageIndex := 1,
         pageNumber := 2, partyName := "Beta", signatoryName := "",
         capacity := "Director", copies := 1, thumbnailUrl := "u",
         originalWidth := 1, originalHeight := 1 }] =
      [{ documentId := "d1", documentName := "A.pdf", pageIndex := 1,
         pageNumber := 2, partyName := "Beta", signatoryName := "",
         capacity := "Director", copies := 1, thumbnailUrl := "u",
         originalWidth := 1, originalHeight := 1 },
       { documentId := "d1", documentName := "A.pdf", pageIndex := 0,
         pageNumber := 1, partyName := "Acme", signatoryName := "ZZZZ",
         capacity := "Director", copies := 1, thumbnailUrl := "u",
         originalWidth := 1, originalHeight := 1 }] := by decide

/-!
Packet-assembler order properties.
-/

/-- Specification order of records inside an output packet: strictly
earlier document name, or same document and nondecreasing page index. -/
def docPageLe (a b : ExtractedSignaturePage) : Prop :=
  strCmp a.documentName b.documentName = .lt ∨
    (a.documentName = b.documentName ∧ a.pageIndex ≤ b.pageIndex)

theorem cmpLe_docPage_iff {a b : ExtractedSignaturePage} :
    cmpLe cmpDocThenPage a b ↔ docPageLe a b := by
  unfold cmpLe docPageLe cmpDocThenPage
  by_cases h : a.documentName = b.documentName
  · rw [if_pos h]
    constructor
    · intro hng
      exact Or.inr ⟨h, cmpLe_natCmp_iff.mp hng⟩
    · rintro (hlt | ⟨_, hle⟩)
      · rw [h, strCmp_self] at hlt
        exact absurd hlt (by simp)
      · exact cmpLe_natCmp_iff.mpr hle
  · rw [if_neg h]
    constructor
    · intro hng
      left
      rcases hv : strCmp a.documentName b.documentName with _ | _ | _
      · rfl
      · exact absurd (strCmp_eq_eq hv) h
      · exact absurd hv hng
    · rintro (hlt | ⟨he, _⟩)
      · rw [hlt]
        simp
      · exact absurd he h

/-- C8.  In every grouping mode, every group assembled by the packet
assembler emits its records sorted by document name ascending, ties broken
by page index ascending. -/
theorem claim8_within_group_order (mode : GroupingMode)
    (pagesToInclude : List ExtractedSignaturePage) (name : String)
    (g : List ExtractedSignaturePage)
    (hmem : (name, g) ∈ packetRecordOrder mode pagesToInclude) :
    List.Sorted docPageLe g := by
  obtain ⟨⟨k, raw⟩, _, he⟩ := List.mem_map.mp hmem
  injection he with h1 h2
  subst h2
  have hs : List.Sorted (cmpLe cmpDocThenPage) (sortGroupPages raw) := by
    haveI := cmpDocThenPage_laws.isTotal
    haveI := cmpDocThenPage_laws.isTrans
    exact List.sorted_insertionSort (cmpLe cmpDocThenPage) raw
  exact hs.imp (fun h => cmpLe_docPage_iff.mp h)

/-- Witness for C8: the counterparty scenario of the specification.  Both
records share the party `Acme Corp`; in the assembled group the page of
`NDA.pdf` precedes the page of `SPA.pdf`. -/
theorem claim8_witness :
    List.Sorted docPageLe
      [{ documentId := "d2", documentName := "NDA.pdf", pageIndex := 1,
         pageNumber := 2, partyName := "Acme Corp",
         signatoryName := "Jane Smith", capacity := "Director", copies := 1,
         thumbnailUrl := "u", originalWidth := 1, originalHeight := 1 },
       { documentId := "d1", documentName := "SPA.pdf", pageIndex := 3,
         pageNumber := 4, partyName := "Acme Corp",
         signatoryName := "Jane Smith", capacity := "Director", copies := 1,
         thumbnailUrl := "u", originalWidth := 1, originalHeight := 1 }] :=
  claim8_within_group_order GroupingMode.counterparty
    [{ documentId := "d1", documentName := "SPA.pdf", pageIndex := 3,
       pageNumber := 4, partyName := "Acme Corp",
       signatoryName := "Jane Smith", capacity := "Director", copies := 1,
       thumbnailUrl := "u", originalWidth := 1, originalHeight := 1 },
     { documentId := "d2", documentName := "NDA.pdf", pageIndex := 1,
       pageNumber := 2, partyName := "Acme Corp",
       signatoryName := "Jane Smith", capacity := "Director", copies := 1,
       thumbnailUrl := "u", originalWidth := 1, originalHeight := 1 }]
    ("Acme Corp")
    [{ documentId := "d2", documentName := "NDA.pdf", pageIndex := 1,
       pageNumber := 2, partyName := "Acme Corp",
       signatoryName := "Jane Smith", capacity := "Director", copies := 1,
       thumbnailUrl := "u", originalWidth := 1, originalHeight := 1 },
     { documentId := "d1", documentName := "SPA.pdf", pageIndex := 3,
       pageNumber := 4, partyName := "Acme Corp",
       signatoryName := "Jane Smith", capacity := "Director", copies := 1,
       thumbnailUrl := "u", originalWidth := 1, originalHeight := 1 }]
    (by decide)

/-!
Copy-count invariant.
-/

theorem groupRecords_foldl_filter (mode : GroupingMode) :
    ∀ (pages : List ExtractedSignaturePage)
      (acc : List (String × List ExtractedSignaturePage)),
      pages.foldl
        (fun gs p => if p.copies = 0 then gs
          else addToGroups gs (groupKey mode p) p) acc =
        (pages.filter (fun p => decide (0 < p.copies))).foldl
          (fun gs p => if p.copies = 0 then gs
            else addToGroups gs (groupKey mode p) p) acc
  | [], _ => rfl
  | p :: ps, acc => by
    rw [List.foldl_cons, List.filter_cons]
    by_cases h : p.copies = 0
    · rw [if_pos h]
      have hd : decide (0 < p.copies) = false := by simp [h]
      rw [hd]
      simp only [Bool.false_eq_true, if_false]
      exact groupRecords_foldl_filter mode ps acc
    · rw [if_neg h]
      have hd : decide (0 < p.copies) = true := by simp; omega
      rw [hd]
      simp only [if_true]
      rw [List.foldl_cons, if_neg h]
      exact groupRecords_foldl_filter mode ps (addToGroups acc (groupKey mode p) p)

/-- C1.  A record with copy count zero contributes to no output (the
assembly of the full record list equals the assembly of the positive-copy
records), and a record with copy count `N` contributes exactly `N`
consecutive copies of its source page at its position in its group's
emission order. -/
theorem claim1_copy_count_invariant (documents : List ProcessedDocument)
    (mode : GroupingMode) (pagesToInclude : List ExtractedSignaturePage) :
    generateGroupedPdfs documents pagesToInclude mode =
      generateGroupedPdfs documents
        (pagesToInclude.filter (fun p => decide (0 < p.copies))) mode ∧
    (∀ name g, (name, g) ∈ packetRecordOrder mode pagesToInclude →
      ∀ l1 p l2, g = l1 ++ p :: l2 →
        (documents.find? (fun d => d.id = p.documentId)).isSome = true →
        (g.map (pageOutput documents)).flatten =
          (l1.map (pageOutput documents)).flatten
            ++ List.replicate p.copies (p.documentId, p.pageIndex)
            ++ (l2.map (pageOutput documents)).flatten) := by
  constructor
  · unfold generateGroupedPdfs groupRecords
    rw [groupRecords_foldl_filter mode pagesToInclude []]
  · intro name g hmem l1 p l2 hg hfind
    have hp : pageOutput documents p =
        List.replicate p.copies (p.documentId, p.pageIndex) := by
      unfold pageOutput
      obtain ⟨d, hd⟩ := Option.isSome_iff_exists.mp hfind
      rw [hd]
    rw [hg, List.map_append, List.map_cons, List.flatten_append,
      List.flatten_cons, hp, List.append_assoc]

/-- Witness for C1: one document, one record with zero copies and one with
two copies; the zero-copy record is invisible to the assembler and the
two-copy record contributes exactly two consecutive page tokens. -/
theorem claim1_witness :
    generateGroupedPdfs [⟨"d1", "SPA.pdf", 5⟩]
      [{ documentId := "d1", documentName := "SPA.pdf", pageIndex := 1,
         pageNumber := 2, partyName := "Acme Corp",
         signatoryName := "Jane Smith", capacity := "Director", copies := 0,
         thumbnailUrl := "u", originalWidth := 1, originalHeight := 1 },
       { documentId := "d1", documentName := "SPA.pdf", pageIndex := 3,
         pageNumber := 4, partyName := "Acme Corp",
         signatoryName := "Jane Smith", capacity := "Director", copies := 2,
         thumbnailUrl := "u", originalWidth := 1, originalHeight := 1 }]
      GroupingMode.agreement =
      generateGroupedPdfs [⟨"d1", "SPA.pdf", 5⟩]
        ([{ documentId := "d1", documentName := "SPA.pdf", pageIndex := 1,
            pageNumber := 2, partyName := "Acme Corp",
            signatoryName := "Jane Smith", capacity := "Director",
            copies := 0, thumbnailUrl := "u", originalWidth := 1,
            originalHeight := 1 },
          { documentId := "d1", documentName := "SPA.pdf", pageIndex := 3,
            pageNumber := 4, partyName := "Acme Corp",
            signatoryName := "Jane Smith", capacity := "Director",
            copies := 2, thumbnailUrl := "u", originalWidth := 1,
            originalHeight := 1 }].filter (fun p => decide (0 < p.copies)))
        GroupingMode.agreement ∧
    ([{ documentId := "d1", documentName := "SPA.pdf", pageIndex := 3,
        pageNumber := 4, partyName := "Acme Corp",
        signatoryName := "Jane Smith", capacity := "Director", copies := 2,
        thumbnailUrl := "u", originalWidth := 1,
        originalHeight := 1 }].map (pageOutput [⟨"d1", "SPA.pdf", 5⟩])).flatten =
      List.replicate 2 (("d1", 3) : PageToken) := by
  have h := claim1_copy_count_invariant [⟨"d1", "SPA.pdf", 5⟩]
    GroupingMode.agreement
    [{ documentId := "d1", documentName := "SPA.pdf", pageIndex := 1,
       pageNumber := 2, partyName := "Acme Corp",
       signatoryName := "Jane Smith", capacity := "Director", copies := 0,
       thumbnailUrl := "u", originalWidth := 1, originalHeight := 1 },
     { documentId := "d1", documentName := "SPA.pdf", pageIndex := 3,
       pageNumber := 4, partyName := "Acme Corp",
       signatoryName := "Jane Smith", capacity := "Director", copies := 2,
       thumbnailUrl := "u", originalWidth := 1, originalHeight := 1 }]
  refine ⟨h.1, ?_⟩
  have h2 := h.2 ("SPA.pdf")
    [{ documentId := "d1", documentName := "SPA.pdf", pageIndex := 3,
       pageNumber := 4, partyName := "Acme Corp",
       signatoryName := "Jane Smith", capacity := "Director", copies := 2,
       thumbnailUrl := "u", originalWidth := 1, originalHeight := 1 }]
    (by decide) []
    { documentId := "d1", documentName := "SPA.pdf", pageIndex := 3,
      pageNumber := 4, partyName := "Acme Corp",
      signatoryName := "Jane Smith", capacity := "Director", copies := 2,
      thumbnailUrl := "u", originalWidth := 1, originalHeight := 1 }
    [] rfl (by decide)
  simpa using h2

/-!
File-name collision behaviour of the results object.
-/

theorem lookup_setResult (rs : List (String × List PageToken)) (k : String)
    (v : List PageToken) (n : String) :
    (setResult rs k v).lookup n = if n = k then some v else rs.lookup n := by
  induction rs with
  | nil =>
    unfold setResult
    by_cases h : n = k
    · simp [List.lookup, h]
    · have hb : (n == k) = false := by simp [h]
      simp [List.lookup, h, hb]
  | cons g rest ih =>
    obtain ⟨k1, v1⟩ := g
    unfold setResult
    by_cases h1 : k1 = k
    · subst h1
      rw [if_pos rfl]
      by_cases h : n = k1
      · subst h
        simp [List.lookup]
      · have hb : (n == k1) = false := by simp [h]
        simp [List.lookup, h, hb]
    · rw [if_neg h1]
      by_cases hn1 : n = k1
      · subst hn1
        simp [List.lookup, h1]
      · have hb : (n == k1) = false := by simp [hn1]
        simp [List.lookup, hn1, hb, ih]

theorem setResult_keys (rs : List (String × List PageToken)) (k : String)
    (v : List PageToken) :
    (setResult rs k v).map Prod.fst =
      if k ∈ rs.map Prod.fst then rs.map Prod.fst
      else rs.map Prod.fst ++ [k] := by
  induction rs with
  | nil => simp [setResult]
  | cons g rest ih =>
    obtain ⟨k1, v1⟩ := g
    unfold setResult
    by_cases h1 : k1 = k
    · subst h1
      rw [if_pos rfl]
      simp
    · rw [if_neg h1]
      have hk : (k ∈ ((k1, v1) :: rest).map Prod.fst) ↔
          k ∈ rest.map Prod.fst := by
        simp only [List.map_cons, List.mem_cons]
        constructor
        · rintro (he | he)
          · exact absurd he.symm h1
          · exact he
        · exact Or.inr
      by_cases hm : k ∈ rest.map Prod.fst
      · rw [if_pos (hk.mpr hm)]
        simp [ih, hm]
      · rw [if_neg (fun hx => hm (hk.mp hx))]
        simp [ih, hm]

theorem setResult_keys_nodup (rs : List (String × List PageToken))
    (k : String) (v : List PageToken)
    (h : (rs.map Prod.fst).Nodup) :
    ((setResult rs k v).map Prod.fst).Nodup := by
  rw [setResult_keys]
  split_ifs with hm
  · exact h
  · rw [List.nodup_append]
    refine ⟨h, by simp, ?_⟩
    intro a ha hb
    rw [List.mem_singleton] at hb
    subst hb
    exact hm ha

theorem buildResults_keys_nodup (σ : String → String)
    (ε : List ExtractedSignaturePage → List PageToken) :
    ∀ (gs : List (String × List ExtractedSignaturePage))
      (acc : List (String × List PageToken)),
      (acc.map Prod.fst).Nodup →
      ((gs.foldl (fun rs g => setResult rs (σ g.1) (ε g.2)) acc).map
        Prod.fst).Nodup
  | [], _, h => h
  | g :: gs, acc, h => by
    rw [List.foldl_cons]
    exact buildResults_keys_nodup σ ε gs _ (setResult_keys_nodup acc _ _ h)

/-- Looking a name up in the assembled results finds the bytes of the last
group whose sanitized name matches, earlier colliding groups having been
silently overwritten. -/
theorem buildResults_lookup (σ : String → String)
    (ε : List ExtractedSignaturePage → List PageToken) (n : String)
    (gs : List (String × List ExtractedSignaturePage)) :
    ∀ (acc : List (String × List PageToken)),
      ((gs.foldl (fun rs g => setResult rs (σ g.1) (ε g.2)) acc).lookup n) =
        ((gs.filter (fun g => σ g.1 == n)).getLast?).elim (acc.lookup n)
          (fun g => some (ε g.2)) := by
  induction gs using List.reverseRecOn with
  | nil =>
    intro acc
    rfl
  | append_singleton gs g ih =>
    intro acc
    rw [List.foldl_append, List.foldl_cons, List.foldl_nil, lookup_setResult,
      List.filter_append]
    by_cases h : n = σ g.1
    · rw [if_pos h]
      have hf : List.filter (fun g2 => σ g2.1 == n) [g] = [g] := by
        simp [List.filter, h]
      rw [hf, List.getLast?_concat]
      rfl
    · rw [if_neg h]
      have hb : (σ g.1 == n) = false := by
        simp
        intro he
        exact h he.symm
      have hf : List.filter (fun g2 => σ g2.1 == n) [g] = [] := by
        simp [List.filter, hb]
      rw [hf, List.append_nil]
      exact ih acc

/-- C9.  When two distinct group keys sanitize to the same file name, the
assembled results hold a single entry under that name, whose bytes are
those of the last matching group in grouping order; no error is raised
(the assembler is total). -/
theorem claim9_sanitized_name_collision (documents : List ProcessedDocument)
    (mode : GroupingMode) (pages : List ExtractedSignaturePage) (n : String)
    (i j : Nat) (hi : i < (groupRecords mode pages).length)
    (hj : j < (groupRecords mode pages).length) (hij : i < j)
    (hk : ((groupRecords mode pages).get ⟨i, hi⟩).1 ≠
      ((groupRecords mode pages).get ⟨j, hj⟩).1)
    (hni : sanitizeGroupName ((groupRecords mode pages).get ⟨i, hi⟩).1 = n)
    (hnj : sanitizeGroupName ((groupRecords mode pages).get ⟨j, hj⟩).1 = n) :
    (∃ glast,
      ((groupRecords mode pages).filter
        (fun g => sanitizeGroupName g.1 == n)).getLast? = some glast ∧
      (generateGroupedPdfs documents pages mode).lookup n =
        some (emitGroup documents glast.2)) ∧
    ((generateGroupedPdfs documents pages mode).map Prod.fst).Nodup := by
  constructor
  · have hmem : (groupRecords mode pages).get ⟨j, hj⟩ ∈
        (groupRecords mode pages).filter
          (fun g => sanitizeGroupName g.1 == n) := by
      rw [List.mem_filter]
      exact ⟨List.get_mem _ _ _, by rw [beq_iff_eq]; exact hnj⟩
    have hne : (groupRecords mode pages).filter
        (fun g => sanitizeGroupName g.1 == n) ≠ [] :=
      List.ne_nil_of_mem hmem
    obtain ⟨glast, hglast⟩ := Option.isSome_iff_exists.mp
      (List.getLast?_isSome.mpr hne)
    refine ⟨glast, hglast, ?_⟩
    unfold generateGroupedPdfs
    rw [buildResults_lookup sanitizeGroupName (emitGroup documents) n
      (groupRecords mode pages) [], hglast]
    rfl
  · unfold generateGroupedPdfs
    exact buildResults_keys_nodup sanitizeGroupName (emitGroup documents)
      (groupRecords mode pages) [] (by simp)

/-- Witness for C9: the distinct party names `A/B` and `AB` both sanitize
to `AB.pdf`; the single entry under that name holds the bytes of the `AB`
group, serialized last. -/
theorem claim9_witness :
    (∃ glast,
      ((groupRecords GroupingMode.counterparty
        [{ documentId := "d1", documentName := "Doc.pdf", pageIndex := 0,
           pageNumber := 1, partyName := "A/B", signatoryName := "S1",
           capacity := "Director", copies := 1, thumbnailUrl := "u",
           originalWidth := 1, originalHeight := 1 },
         { documentId := "d1", documentName := "Doc.pdf", pageIndex := 1,
           pageNumber := 2, partyName := "AB", signatoryName := "S2",
           capacity := "Director", copies := 1, thumbnailUrl := "u",
           originalWidth := 1, originalHeight := 1 }]).filter
        (fun g => sanitizeGroupName g.1 == "AB.pdf")).getLast? = some glast ∧
      (generateGroupedPdfs [⟨"d1", "Doc.pdf", 3⟩]
        [{ documentId := "d1", documentName := "Doc.pdf", pageIndex := 0,
           pageNumber := 1, partyName := "A/B", signatoryName := "S1",
           capacity := "Director", copies := 1, thumbnailUrl := "u",
           originalWidth := 1, originalHeight := 1 },
         { documentId := "d1", documentName := "Doc.pdf", pageIndex := 1,
           pageNumber := 2, partyName := "AB", signatoryName := "S2",
           capacity := "Director", copies := 1, thumbnailUrl := "u",
           originalWidth := 1, originalHeight := 1 }]
        GroupingMode.counterparty).lookup ("AB.pdf") =
        some (emitGroup [⟨"d1", "Doc.pdf", 3⟩] glast.2)) ∧
    ((generateGroupedPdfs [⟨"d1", "Doc.pdf", 3⟩]
      [{ documentId := "d1", documentName := "Doc.pdf", pageIndex := 0,
         pageNumber := 1, partyName := "A/B", signatoryName := "S1",
         capacity := "Director", copies := 1, thumbnailUrl := "u",
         originalWidth := 1, originalHeight := 1 },
       { documentId := "d1", documentName := "Doc.pdf", pageIndex := 1,
         pageNumber := 2, partyName := "AB", signatoryName := "S2",
         capacity := "Director", copies := 1, thumbnailUrl := "u",
         originalWidth := 1, originalHeight := 1 }]
      GroupingMode.counterparty).map Prod.fst).Nodup :=
  claim9_sanitized_name_collision [⟨"d1", "Doc.pdf", 3⟩]
    GroupingMode.counterparty
    [{ documentId := "d1", documentName := "Doc.pdf", pageIndex := 0,
       pageNumber := 1, partyName := "A/B", signatoryName := "S1",
       capacity := "Director", copies := 1, thumbnailUrl := "u",
       originalWidth := 1, originalHeight := 1 },
     { documentId := "d1", documentName := "Doc.pdf", pageIndex := 1,
       pageNumber := 2, partyName := "AB", signatoryName := "S2",
       capacity := "Director", copies := 1, thumbnailUrl := "u",
       originalWidth := 1, originalHeight := 1 }]
    ("AB.pdf") 0 1 (by decide) (by decide) (by decide) (by decide)
    (by decide) (by decide)

/-!
Unknown-signatory naming.
-/

theorem addToGroups_mem_self (gs : List (String × List ExtractedSignaturePage))
    (k : String) (p : ExtractedSignaturePage) :
    ∃ g, (k, g) ∈ addToGroups gs k p ∧ p ∈ g := by
  induction gs with
  | nil => exact ⟨[p], by simp [addToGroups], by simp⟩
  | cons g1 rest ih =>
    obtain ⟨k1, ps⟩ := g1
    unfold addToGroups
    by_cases h : k1 = k
    · subst h
      rw [if_pos rfl]
      exact ⟨ps ++ [p], by simp, by simp⟩
    · rw [if_neg h]
      obtain ⟨g, hg, hp⟩ := ih
      exact ⟨g, List.mem_cons_of_mem _ hg, hp⟩

theorem addToGroups_mem_preserve
    (gs : List (String × List ExtractedSignaturePage)) (k2 : String)
    (p : ExtractedSignaturePage) {k : String}
    {g : List ExtractedSignaturePage} {x : ExtractedSignaturePage}
    (hg : (k, g) ∈ gs) (hx : x ∈ g) :
    ∃ g2, (k, g2) ∈ addToGroups gs k2 p ∧ x ∈ g2 := by
  induction gs with
  | nil => exact absurd hg (by simp)
  | cons g1 rest ih =>
    obtain ⟨k1, ps⟩ := g1
    unfold addToGroups
    by_cases h : k1 = k2
    · subst h
      rw [if_pos rfl]
      rcases List.mem_cons.mp hg with he | ht
      · have he1 : k1 = k := (congrArg Prod.fst he).symm
        have he2 : ps = g := (congrArg Prod.snd he).symm
        refine ⟨ps ++ [p], ?_, ?_⟩
        · rw [he1]
          exact List.mem_cons_self _ _
        · rw [he2]
          exact List.mem_append_left _ hx
      · exact ⟨g, List.mem_cons_of_mem _ ht, hx⟩
    · rw [if_neg h]
      rcases List.mem_cons.mp hg with he | ht
      · have he1 : k1 = k := (congrArg Prod.fst he).symm
        have he2 : ps = g := (congrArg Prod.snd he).symm
        refine ⟨ps, ?_, ?_⟩
        · rw [he1]
          exact List.mem_cons_self _ _
        · rw [he2]
          exact hx
      · obtain ⟨g2, hg2, hx2⟩ := ih ht
        exact ⟨g2, List.mem_cons_of_mem _ hg2, hx2⟩

theorem groupRecords_mem (mode : GroupingMode) :
    ∀ (pages : List ExtractedSignaturePage)
      (acc : List (String × List ExtractedSignaturePage))
      {x : ExtractedSignaturePage} {k : String},
      ((∃ g, (k, g) ∈ acc ∧ x ∈ g) ∨
        (x ∈ pages ∧ x.copies ≠ 0 ∧ k = groupKey mode x)) →
      ∃ g, (k, g) ∈ pages.foldl
          (fun gs p => if p.copies = 0 then gs
            else addToGroups gs (groupKey mode p) p) acc ∧ x ∈ g
  | [], acc, x, k, h => by
    rcases h with h | ⟨hm, _, _⟩
    · exact h
    · exact absurd hm (by simp)
  | p :: ps, acc, x, k, h => by
    rw [List.foldl_cons]
    apply groupRecords_mem mode ps
    rcases h with ⟨g, hg, hx⟩ | ⟨hm, hc, hk⟩
    · left
      by_cases hz : p.copies = 0
      · rw [if_pos hz]
        exact ⟨g, hg, hx⟩
      · rw [if_neg hz]
        exact addToGroups_mem_preserve acc (groupKey mode p) p hg hx
    · rcases List.mem_cons.mp hm with he | ht
      · subst he
        left
        rw [if_neg hc]
        subst hk
        exact addToGroups_mem_self acc (groupKey mode x) x
      · right
        exact ⟨ht, hc, hk⟩

theorem groupRecords_mem_of (mode : GroupingMode)
    (pages : List ExtractedSignaturePage) {x : ExtractedSignaturePage}
    (hx : x ∈ pages) (hc : x.copies ≠ 0) :
    ∃ g, (groupKey mode x, g) ∈ groupRecords mode pages ∧ x ∈ g :=
  groupRecords_mem mode pages [] (Or.inr ⟨hx, hc, rfl⟩)

theorem insertUniq_mem_preserve {l : List String} {key : String}
    (s : String) (h : key ∈ l) : key ∈ insertUniq l s := by
  unfold insertUniq
  split_ifs with hm
  · exact h
  · exact List.mem_append_left _ h

theorem insertUniq_mem_self (l : List String) (s : String) :
    s ∈ insertUniq l s := by
  unfold insertUniq
  split_ifs with hm
  · exact hm
  · exact List.mem_append_right _ (by simp)

theorem foldl_insertUniq_mem (mode : GroupingMode) :
    ∀ (l : List ExtractedSignaturePage) (acc : List String) {key : String},
      (key ∈ acc ∨ ∃ p ∈ l, navKey mode p = key) →
      key ∈ l.foldl (fun a p => insertUniq a (navKey mode p)) acc
  | [], acc, key, h => by
    rcases h with h | ⟨p, hp, _⟩
    · exact h
    · exact absurd hp (by simp)
  | p :: ps, acc, key, h => by
    rw [List.foldl_cons]
    apply foldl_insertUniq_mem mode ps
    rcases h with h | ⟨q, hq, hk⟩
    · left
      exact insertUniq_mem_preserve (navKey mode p) h
    · rcases List.mem_cons.mp hq with he | ht
      · subst he
        subst hk
        left
        exact insertUniq_mem_self acc (navKey mode q)
      · right
        exact ⟨q, ht, hk⟩

theorem navigationGroups_mem (mode : GroupingMode)
    (pages : List ExtractedSignaturePage) {x : ExtractedSignaturePage}
    (hx : x ∈ pages) : navKey mode x ∈ navigationGroups mode pages := by
  unfold navigationGroups
  apply foldl_insertUniq_mem mode
  right
  exact ⟨x, (List.mem_insertionSort _).mpr hx, rfl⟩

/-- C10.  A record with an empty signatory name is grouped by the packet
assembler under the literal key `Unknown_Signatory`, whose packet file is
named `Unknown_Signatory.pdf`, while the navigation list labels the same
records `Unknown Signatory`; the exported file name differs from the
on-screen label.  (The record must have a positive copy count to be
included in packet assembly at all.) -/
theorem claim10_unknown_signatory_naming
    (pages : List ExtractedSignaturePage) (r : ExtractedSignaturePage)
    (hr : r ∈ pages) (hsig : r.signatoryName = "") (hc : r.copies ≠ 0) :
    groupKey GroupingMode.signatory r = "Unknown_Signatory" ∧
    (∃ g, ("Unknown_Signatory", g) ∈
      groupRecords GroupingMode.signatory pages ∧ r ∈ g) ∧
    sanitizeGroupName ("Unknown_Signatory") = "Unknown_Signatory.pdf" ∧
    ("Unknown Signatory") ∈ navigationGroups GroupingMode.signatory pages ∧
    ("Unknown_Signatory.pdf" : String) ≠ "Unknown Signatory" := by
  have hk : groupKey GroupingMode.signatory r = "Unknown_Signatory" := by
    unfold groupKey
    rw [if_pos hsig]
  refine ⟨hk, ?_, by decide, ?_, by decide⟩
  · have h2 := groupRecords_mem_of GroupingMode.signatory pages hr hc
    rwa [hk] at h2
  · have h2 := navigationGroups_mem GroupingMode.signatory pages hr
    have h3 : navKey GroupingMode.signatory r = "Unknown Signatory" := by
      unfold navKey
      rw [if_pos hsig]
    rwa [h3] at h2

/-- Witness for C10 at a concrete one-record list with empty signatory. -/
theorem claim10_witness :
    groupKey GroupingMode.signatory
      { documentId := "d1", documentName := "Doc.pdf", pageIndex := 0,
        pageNumber := 1, partyName := "Acme", signatoryName := "",
        capacity := "Director", copies := 1, thumbnailUrl := "u",
        originalWidth := 1, originalHeight := 1 } = "Unknown_Signatory" ∧
    (∃ g, ("Unknown_Signatory", g) ∈
      groupRecords GroupingMode.signatory
        [{ documentId := "d1", documentName := "Doc.pdf", pageIndex := 0,
           pageNumber := 1, partyName := "Acme", signatoryName := "",
           capacity := "Director", copies := 1, thumbnailUrl := "u",
           originalWidth := 1, originalHeight := 1 }] ∧
      { documentId := "d1", documentName := "Doc.pdf", pageIndex := 0,
        pageNumber := 1, partyName := "Acme", signatoryName := "",
        capacity := "Director", copies := 1, thumbnailUrl := "u",
        originalWidth := 1, originalHeight := 1 } ∈ g) ∧
    sanitizeGroupName ("Unknown_Signatory") = "Unknown_Signatory.pdf" ∧
    ("Unknown Signatory") ∈ navigationGroups GroupingMode.signatory
      [{ documentId := "d1", documentName := "Doc.pdf", pageIndex := 0,
         pageNumber := 1, partyName := "Acme", signatoryName := "",
         capacity := "Director", copies := 1, thumbnailUrl := "u",
         originalWidth := 1, originalHeight := 1 }] ∧
    ("Unknown_Signatory.pdf" : String) ≠ "Unknown Signatory" :=
  claim10_unknown_signatory_naming
    [{ documentId := "d1", documentName := "Doc.pdf", pageIndex := 0,
       pageNumber := 1, partyName := "Acme", signatoryName := "",
       capacity := "Director", copies := 1, thumbnailUrl := "u",
       originalWidth := 1, originalHeight := 1 }]
    { documentId := "d1", documentName := "Doc.pdf", pageIndex := 0,
      pageNumber := 1, partyName := "Acme", signatoryName := "",
      capacity := "Director", copies := 1, thumbnailUrl := "u",
      originalWidth := 1, originalHeight := 1 }
    (by decide) (by decide) (by decide)

end SigPack
